import Mathlib

/-!
Verification of the stop-data acquisition and caching pipeline of the
transit-kindle repository (final design, `src/api_client.rs`), against its
natural-language specification.

Modelling conventions used throughout:
* `DateTime<Utc>` timestamps are modelled as `Int` (a linear time axis);
  `Utc::now()` becomes an explicit `now : Int` parameter taken at the moment
  the modelled function runs.
* `expected_arrival_time.parse::<DateTime<Utc>>()` (chrono's parser, external
  to this repository) is modelled as an explicit parameter
  `parseTime : String → Option Int`; `none` models a parse failure.
* Rust `HashMap`s are modelled as association lists; a `HashMap` that the code
  only iterates (`line_prefix_subs`) is modelled as the list of its entries in
  the (unspecified) order the `HashMap` yields them.
* `eyre::Result` / fallible functions become `Except`.
-/

/-- `MonitoredCall` (api_client.rs:47-52): the per-visit call data of one raw
record; `expected_arrival_time` is optional. -/
structure MonitoredCall where
  expected_arrival_time : Option String
  stop_point_ref : String
deriving DecidableEq

/-- `MonitoredVehicleJourney` (api_client.rs:38-45): one raw upstream arrival
record; `line_ref`, `direction_ref` and `destination_name` are optional. -/
structure MonitoredVehicleJourney where
  line_ref : Option String
  direction_ref : Option String
  destination_name : Option String
  monitored_call : MonitoredCall
deriving DecidableEq

/-- `Cached` (api_client.rs:78-82): the per-agency snapshot persisted to disk:
the fetched records plus the wall-clock time of the successful fetch. -/
structure Cached where
  journeys : List MonitoredVehicleJourney
  live_time : Int
deriving DecidableEq

/-- `StopConfig` (config.rs:45-51). `line_prefix_subs` is a
`HashMap<String, String>` in the source; it is modelled here as the list of
its (prefix, replacement) entries in the order the `HashMap` iterates them,
which is an unspecified order, not the order of the configuration file. -/
structure StopConfig where
  agency : String
  line_prefix_subs : List (String × String)
  stops : List String
deriving DecidableEq

/-- `Line` (api_client.rs:65-71): the grouping key (line, agency, direction,
destination) after substitution. -/
structure Line where
  line : String
  agency : String
  direction : String
  destination : String
deriving DecidableEq

/-- `UpcomingResponse` (api_client.rs:59-63): the transformed output for one
agency.  The source's `BTreeMap<Line, Vec<Upcoming>>` is modelled as an
association list with unique keys; each `Upcoming` is its timestamp. -/
structure UpcomingResponse where
  agency : String
  upcoming : List (Line × List Int)
  live_time : Int
deriving DecidableEq

/-- Error taxonomy of the pipeline: cache file absent, cache contents
undeserializable, or a present timestamp that fails to parse (the transform's
only error, api_client.rs:301). -/
inductive Err where
  | notFound
  | corrupt
  | timeParse (s : String)
deriving DecidableEq

/-- Rust `str::starts_with` (api_client.rs:316): byte-prefix test, equivalent
to a character-list prefix test. -/
def startsWith (s p : String) : Bool :=
  p.data.isPrefixOf s.data

/-- The line-label substitution loop of `transform_results`
(api_client.rs:314-320): scan the (prefix, replacement) entries in iteration
order; the first entry whose prefix starts the raw label replaces the whole
label (`break`); no match keeps the raw label. -/
def subLine (subs : List (String × String)) (line : String) : String :=
  match subs with
  | [] => line
  | (p, replacement) :: rest =>
    if startsWith line p then replacement else subLine rest line

/-- The destination substitution of `transform_results` (api_client.rs:307-312):
exact-match lookup in `destination_subs`, keeping the raw destination when
absent. -/
def subDestination (ds : List (String × String)) (dest : String) : String :=
  (ds.lookup dest).getD dest

/-- The per-record body of the `for journey in cached.journeys` loop of
`transform_results` (api_client.rs:295-331):
`.ok none` models `continue` (a silently skipped record),
`.ok (some (key, time))` models a surviving record contributing `time` to
group `key`, and `.error` models the `?` on the timestamp parse
(api_client.rs:301), which aborts the whole transform. -/
def processJourney (ds : List (String × String)) (cfg : StopConfig)
    (parseTime : String → Option Int) (now : Int)
    (j : MonitoredVehicleJourney) : Except Err (Option (Line × Int)) :=
  match j.monitored_call.expected_arrival_time with
  | none => .ok none
  | some eat =>
    match j.line_ref with
    | none => .ok none
    | some line =>
      match j.direction_ref with
      | none => .ok none
      | some direction =>
        match j.destination_name with
        | none => .ok none
        | some destination =>
          match parseTime eat with
          | none => .error (.timeParse eat)
          | some time =>
            if time < now then .ok none
            else
              .ok (some
                ({ line := subLine cfg.line_prefix_subs line
                 , agency := cfg.agency
                 , direction := direction
                 , destination := subDestination ds destination }, time))

/-- `upcoming.entry(key).or_default().push(time)` (api_client.rs:322-330) on
the association-list model of the map: append `t` to the first entry with key
`k`, or add a new `(k, [t])` entry at the end. -/
def insertUpcoming (m : List (Line × List Int)) (k : Line) (t : Int) :
    List (Line × List Int) :=
  match m with
  | [] => [(k, [t])]
  | (k2, ts) :: rest =>
    if k2 = k then (k2, ts ++ [t]) :: rest else (k2, ts) :: insertUpcoming rest k t

/-- The record loop of `transform_results` (api_client.rs:295-331), threading
the grouping map; the first parse failure aborts with `.error`, leaving no
output. -/
def buildUpcoming (ds : List (String × String)) (cfg : StopConfig)
    (parseTime : String → Option Int) (now : Int) :
    List MonitoredVehicleJourney → List (Line × List Int) →
    Except Err (List (Line × List Int))
  | [], m => .ok m
  | j :: rest, m =>
    match processJourney ds cfg parseTime now j with
    | .error e => .error e
    | .ok none => buildUpcoming ds cfg parseTime now rest m
    | .ok (some (k, t)) =>
      buildUpcoming ds cfg parseTime now rest (insertUpcoming m k t)

/-- The per-group postprocessing of `transform_results` (api_client.rs:333-338):
`times.sort()` then `drain` everything past the first 4.  Rust's stable
ascending sort on timestamps is extensionally the sorted permutation, so any
sorted permutation (here insertion sort) models it exactly. -/
def sortTruncate (ts : List Int) : List Int :=
  (List.insertionSort (· ≤ ·) ts).take 4

/-- A JSON value, the target of `serde_json` serialization.  Chrono serializes
a `DateTime<Utc>` as a scalar (an RFC3339 string that round-trips at full
precision); it is modelled as the scalar embedding `jint` of the timestamp. -/
inductive JValue where
  | jnull
  | jstr (s : String)
  | jint (n : Int)
  | jarr (xs : List JValue)
  | jobj (fields : List (String × JValue))

/-- serde serialization of an `Option<String>` field: `None` is `null`. -/
def encodeOptStr : Option String → JValue
  | none => .jnull
  | some s => .jstr s

/-- serde deserialization of an `Option<String>` field. -/
def decodeOptStr : JValue → Option (Option String)
  | .jnull => some none
  | .jstr s => some (some s)
  | _ => none

/-- serde deserialization of a `String` field. -/
def decodeStr : JValue → Option String
  | .jstr s => some s
  | _ => none

/-- serde deserialization of the timestamp scalar. -/
def decodeInt : JValue → Option Int
  | .jint n => some n
  | _ => none

/-- Derived `Serialize` for `MonitoredCall` (api_client.rs:47-52), fields
renamed PascalCase. -/
def encodeCall (c : MonitoredCall) : JValue :=
  .jobj [("ExpectedArrivalTime", encodeOptStr c.expected_arrival_time),
         ("StopPointRef", .jstr c.stop_point_ref)]

/-- Derived `Deserialize` for `MonitoredCall`. -/
def decodeCall (v : JValue) : Option MonitoredCall :=
  match v with
  | .jobj fs =>
    match fs.lookup "ExpectedArrivalTime" with
    | none => none
    | some ev =>
      match decodeOptStr ev with
      | none => none
      | some eat =>
        match fs.lookup "StopPointRef" with
        | none => none
        | some sv =>
          match decodeStr sv with
          | none => none
          | some spr => some ⟨eat, spr⟩
  | _ => none

/-- Derived `Serialize` for `MonitoredVehicleJourney` (api_client.rs:38-45),
fields renamed PascalCase. -/
def encodeJourney (j : MonitoredVehicleJourney) : JValue :=
  .jobj [("LineRef", encodeOptStr j.line_ref),
         ("DirectionRef", encodeOptStr j.direction_ref),
         ("DestinationName", encodeOptStr j.destination_name),
         ("MonitoredCall", encodeCall j.monitored_call)]

/-- Derived `Deserialize` for `MonitoredVehicleJourney`. -/
def decodeJourney (v : JValue) : Option MonitoredVehicleJourney :=
  match v with
  | .jobj fs =>
    match fs.lookup "LineRef" with
    | none => none
    | some lv =>
      match decodeOptStr lv with
      | none => none
      | some lr =>
        match fs.lookup "DirectionRef" with
        | none => none
        | some dv =>
          match decodeOptStr dv with
          | none => none
          | some dr =>
            match fs.lookup "DestinationName" with
            | none => none
            | some nv =>
              match decodeOptStr nv with
              | none => none
              | some dn =>
                match fs.lookup "MonitoredCall" with
                | none => none
                | some cv =>
                  match decodeCall cv with
                  | none => none
                  | some mc => some ⟨lr, dr, dn, mc⟩
  | _ => none

/-- Element-by-element deserialization of a JSON array of journeys; the first
malformed element fails the whole array, as serde does. -/
def decodeJourneyList : List JValue → Option (List MonitoredVehicleJourney)
  | [] => some []
  | v :: rest =>
    match decodeJourney v with
    | none => none
    | some j =>
      match decodeJourneyList rest with
      | none => none
      | some js => some (j :: js)

/-- Deserialization of the `journeys` array. -/
def decodeJourneys : JValue → Option (List MonitoredVehicleJourney)
  | .jarr xs => decodeJourneyList xs
  | _ => none

/-- Derived `Serialize` for `Cached` (api_client.rs:78-82): what
`serde_json::to_writer` writes in `store_cache` (api_client.rs:213). -/
def encodeCached (c : Cached) : JValue :=
  .jobj [("journeys", .jarr (c.journeys.map encodeJourney)),
         ("live_time", .jint c.live_time)]

/-- Derived `Deserialize` for `Cached`: what `serde_json::from_reader` parses
in `load_cached` (api_client.rs:195). -/
def decodeCached (v : JValue) : Option Cached :=
  match v with
  | .jobj fs =>
    match fs.lookup "journeys" with
    | none => none
    | some jv =>
      match decodeJourneys jv with
      | none => none
      | some js =>
        match fs.lookup "live_time" with
        | none => none
        | some tv =>
          match decodeInt tv with
          | none => none
          | some lt => some ⟨js, lt⟩
  | _ => none

/-- The on-disk state of one agency's cache file as a concurrent reader can
observe it: absent, just truncated to empty (the state `File::create` leaves
before any bytes are written, api_client.rs:211), or holding a complete
serialized value. -/
inductive CacheFile where
  | absent
  | emptyFile
  | content (v : JValue)

/-- `Client::load_cached` (api_client.rs:192-201): open the file (absence is
an error), deserialize (failure, including an empty or truncated file, is an
error), and return the snapshot.  `now` is the wall-clock time of the read;
the age `now - live_time` is computed only for a debug log (lines 197-198)
and never influences the result. -/
def load_cached (file : CacheFile) (now : Int) : Except Err Cached :=
  match file with
  | .absent => .error .notFound
  | .emptyFile => .error .corrupt
  | .content v =>
    match decodeCached v with
    | none => .error .corrupt
    | some c =>
      let _age := now - c.live_time
      .ok c

/-- The complete cache file `Client::store_cache` (api_client.rs:203-218)
leaves for an agency: the fetched records serialized together with
`live_time := Utc::now()`, the wall-clock time of the write (line 206). -/
def store_cache (now : Int) (journeys : List MonitoredVehicleJourney) : CacheFile :=
  .content (encodeCached ⟨journeys, now⟩)

/-- The phases of one `store_cache` execution visible to a concurrent reader:
before `File::create` runs, after `File::create` truncated the file
(api_client.rs:211), and after `serde_json::to_writer` wrote the new value
(api_client.rs:213). -/
inductive WritePhase where
  | before
  | created
  | written

/-- The cache file state a reader observes while `store_cache` replaces the
snapshot `old` with `⟨journeys, now⟩`: `store_cache` writes in place (no
temporary file, no rename), so the truncated intermediate state is
observable. -/
def storeCacheFileState (old : CacheFile) (journeys : List MonitoredVehicleJourney)
    (now : Int) : WritePhase → CacheFile
  | .before => old
  | .created => .emptyFile
  | .written => store_cache now journeys

/-- First-match lookup in an association list, the model of `HashMap` reads. -/
def getAssoc {κ β : Type} [DecidableEq κ] (k : κ) : List (κ × β) → Option β
  | [] => none
  | (k2, v) :: rest => if k2 = k then some v else getAssoc k rest

/-- `map.entry(k).or_default()` followed by a mutation `f` of the entry, the
model of `HashMap` upserts: modify the first entry with key `k`, or append a
new entry `(k, f d)` built from the default value `d`. -/
def updAssoc {κ β : Type} [DecidableEq κ] (d : β) (f : β → β) (k : κ) :
    List (κ × β) → List (κ × β)
  | [] => [(k, f d)]
  | (k2, v) :: rest =>
    if k2 = k then (k2, f v) :: rest else (k2, v) :: updAssoc d f k rest

/-- `AgencyDirectionLines` (api_client.rs:95-98). -/
structure AgencyDirectionLines where
  lines : List (Line × List Int)
deriving DecidableEq

/-- `AgencyDirections` (api_client.rs:89-93); the `Default` used by
`or_default` is `live_time = 0` (the epoch) and no directions. -/
structure AgencyDirections where
  live_time : Int
  directions : List (String × AgencyDirectionLines)
deriving DecidableEq

/-- `StopData` (api_client.rs:84-87), the pipeline output. -/
structure StopData where
  agencies : List (String × AgencyDirections)
deriving DecidableEq

/-- The body of the merge loop of `DataAccess::load_stop_data`
(api_client.rs:146-157) for one `(line, upcoming)` pair of a response:
`data.agencies.entry(agency).or_default()`, overwrite its `live_time` with the
response's, then `directions.entry(direction).or_default().lines.push(..)`. -/
def addLine (data : StopData) (agency : String) (lt : Int) (line : Line)
    (up : List Int) : StopData :=
  { agencies :=
      updAssoc { live_time := 0, directions := [] }
        (fun ad =>
          { live_time := lt
          , directions :=
              updAssoc { lines := [] }
                (fun dl => { lines := dl.lines ++ [(line, up)] })
                line.direction ad.directions })
        agency data.agencies }

/-- Merging one agency's `UpcomingResponse` into the aggregate `StopData`
(api_client.rs:146-157). -/
def addResponse (data : StopData) (r : UpcomingResponse) : StopData :=
  r.upcoming.foldl (fun d p => addLine d r.agency r.live_time p.1 p.2) data

/-- One per-agency task of a refresh tick (`Client::load_stop_data` spawning
`request_and_cache` per agency, api_client.rs:172-190): `outcome` is
`some records` if the HTTP fetch, status check and envelope parse succeeded
(the records already filtered to the configured stops), and `none` if the
fetch failed. -/
structure TickTask where
  agency : String
  outcome : Option (List MonitoredVehicleJourney)

/-- The per-agency on-disk snapshots, keyed by agency. -/
abbrev CacheState := List (String × Cached)

/-- Overwrite one agency's snapshot (the effect of `store_cache` on that
agency's file). -/
def setCache (st : CacheState) (a : String) (c : Cached) : CacheState :=
  updAssoc c (fun _ => c) a st

/-- The effect of one `request_and_cache` task (api_client.rs:235-286) on the
cache state: a successful fetch stores `⟨records, now⟩` at its agency's cache
path (lines 277-283) and the task returns `Ok`; a failed fetch stores nothing
(the `?` on lines 245-254 returns before `store_cache` is reached) and the
task returns `Err`. -/
def request_and_cache_effect (now : Int) (st : CacheState) (t : TickTask) :
    CacheState × Bool :=
  match t.outcome with
  | some records => (setCache st t.agency ⟨records, now⟩, true)
  | none => (st, false)

/-- One refresh tick, `Client::load_stop_data` (api_client.rs:172-190), with
its per-agency tasks listed in completion order.  The join loop
`while let Some(result) = joinset.join_next().await { result??; }` (lines
185-187) returns at the FIRST task that completed with an error; the
remaining tasks are still pending at that point and are aborted when the
`JoinSet` is dropped, so in the execution modelled here their stores do not
happen.  Returns the resulting cache state and whether the tick succeeded. -/
def Client_load_stop_data (now : Int) : CacheState → List TickTask →
    CacheState × Bool
  | st, [] => (st, true)
  | st, t :: rest =>
    match request_and_cache_effect now st t with
    | (st2, true) => Client_load_stop_data now st2 rest
    | (st2, false) => (st2, false)

/-- The background refresh loop spawned by `DataAccess::new`
(api_client.rs:113-121): each tick's error is caught by
`if let Err(e) = ... { warn!(..) }` and discarded, and the loop sleeps and
runs the next tick; a tick failure never terminates the loop.  Each tick is
given as its wall-clock time and its tasks in completion order. -/
def refresh_loop (st : CacheState) (ticks : List (Int × List TickTask)) :
    CacheState :=
  ticks.foldl (fun s tick => (Client_load_stop_data tick.1 s tick.2).1) st

/-- `Client::transform_results` (api_client.rs:288-345): run the record loop,
then sort-and-truncate every group, and return the agency, the grouped map and
the snapshot's `live_time` unchanged. -/
def transform_results (ds : List (String × String)) (cfg : StopConfig)
    (parseTime : String → Option Int) (now : Int) (cached : Cached) :
    Except Err UpcomingResponse :=
  match buildUpcoming ds cfg parseTime now cached.journeys [] with
  | .error e => .error e
  | .ok m =>
    .ok { agency := cfg.agency
        , upcoming := m.map (fun p => (p.1, sortTruncate p.2))
        , live_time := cached.live_time }

/-- `Client::load_upcoming_from_cache` (api_client.rs:224-233): read the
agency's cache file, then transform it; either step's error fails the
agency. -/
def load_upcoming_from_cache (ds : List (String × String))
    (parseTime : String → Option Int) (now : Int) (cfg : StopConfig)
    (file : CacheFile) : Except Err UpcomingResponse :=
  match load_cached file now with
  | .error e => .error e
  | .ok cached => transform_results ds cfg parseTime now cached

/-- The join loop of `DataAccess::load_stop_data` (api_client.rs:143-158)
viewed at the granularity of per-agency results, listed in completion order:
each agency's read-and-transform result is collected, and the first error
fails the whole read (`result??`, line 144). -/
def collectResponses (ds : List (String × String))
    (parseTime : String → Option Int) (now : Int) :
    List (StopConfig × CacheFile) → Except Err (List UpcomingResponse)
  | [] => .ok []
  | (cfg, file) :: rest =>
    match load_upcoming_from_cache ds parseTime now cfg file with
    | .error e => .error e
    | .ok r =>
      match collectResponses ds parseTime now rest with
      | .error e => .error e
      | .ok rs => .ok (r :: rs)

/-- `DataAccess::load_stop_data` (api_client.rs:126-161), the read-path
orchestrator: read and transform every configured agency (each paired with
the current state of its cache file), then merge all responses into the
aggregate `StopData`. -/
def DataAccess_load_stop_data (ds : List (String × String))
    (parseTime : String → Option Int) (now : Int)
    (cfgs : List (StopConfig × CacheFile)) : Except Err StopData :=
  match collectResponses ds parseTime now cfgs with
  | .error e => .error e
  | .ok rs => .ok (rs.foldl addResponse { agencies := [] })

/-! ### Helper predicates derived from the record loop -/

/-- A record that passes the missing-field filter of `transform_results`
(all four of `expected_arrival_time`, `line_ref`, `direction_ref`,
`destination_name` present, api_client.rs:296-299) but whose present
timestamp fails to parse (api_client.rs:301): exactly the records that abort
the transform. -/
def badTimeRecord (parseTime : String → Option Int)
    (j : MonitoredVehicleJourney) : Bool :=
  match j.monitored_call.expected_arrival_time, j.line_ref, j.direction_ref,
      j.destination_name with
  | some eat, some _, some _, some _ => (parseTime eat).isNone
  | _, _, _, _ => false

/-- The surviving (key, time) contribution of one record, read off the loop
body of `transform_results` (api_client.rs:295-331): `none` when a field is
absent or the parsed time is in the past, `some (key, time)` otherwise.
Records whose present timestamp fails to parse abort the transform instead
and are covered by `badTimeRecord`. -/
def goodPair (ds : List (String × String)) (cfg : StopConfig)
    (parseTime : String → Option Int) (now : Int)
    (j : MonitoredVehicleJourney) : Option (Line × Int) :=
  match j.monitored_call.expected_arrival_time, j.line_ref, j.direction_ref,
      j.destination_name with
  | some eat, some line, some direction, some destination =>
    match parseTime eat with
    | none => none
    | some time =>
      if time < now then none
      else some
        ({ line := subLine cfg.line_prefix_subs line
         , agency := cfg.agency
         , direction := direction
         , destination := subDestination ds destination }, time)
  | _, _, _, _ => none

/-- The multiset of surviving arrival times a record list contributes to the
group of key `k` (before sorting and truncation). -/
def groupTimes (ds : List (String × String)) (cfg : StopConfig)
    (parseTime : String → Option Int) (now : Int)
    (js : List MonitoredVehicleJourney) (k : Line) : List Int :=
  ((js.filterMap (goodPair ds cfg parseTime now)).filter
    (fun p => p.1 = k)).map Prod.snd

/-- A direction entry with at least one line, each with at least one
upcoming time. -/
def goodDL (dl : AgencyDirectionLines) : Prop :=
  dl.lines ≠ [] ∧ ∀ pl ∈ dl.lines, pl.2 ≠ []

/-- An agency entry with at least one direction, each direction with at least
one line, each line with at least one upcoming time. -/
def goodAD (ad : AgencyDirections) : Prop :=
  ad.directions ≠ [] ∧ ∀ q ∈ ad.directions, goodDL q.2

/-- Every agency entry of the aggregate is non-degenerate. -/
def goodStopData (d : StopData) : Prop :=
  ∀ e ∈ d.agencies, goodAD e.2

deriving instance DecidableEq for Except

/-- A concrete parse table standing in for chrono's timestamp parser in the
closed instances below: the handful of timestamp strings they use, mapped to
minutes on the model time axis; every other string fails to parse. -/
def ptW : String → Option Int := fun s =>
  List.lookup s
    [("1", 1), ("2", 2), ("3", 3), ("10", 10), ("30", 30), ("40", 40),
     ("50", 50), ("-1", -1)]

/-- A concrete raw record for line L1, direction IB, destination Downtown,
arriving at the time named by `t`. -/
def mkJ (t : String) : MonitoredVehicleJourney :=
  ⟨some "L1", some "IB", some "Downtown", ⟨some t, "stopA"⟩⟩

/-! ### Lemmas about the line-label substitution -/

theorem subLine_eq_find (subs : List (String × String)) (line : String) :
    subLine subs line
      = ((subs.find? fun p => startsWith line p.1).map Prod.snd).getD line := by
  induction subs with
  | nil => rfl
  | cons p rest ih =>
    obtain ⟨pre, rep⟩ := p
    by_cases hp : startsWith line pre
    · simp [subLine, List.find?, hp]
    · simp [subLine, List.find?, hp, ih]

/-! ### Lemmas about sort-and-truncate -/

theorem sortTruncate_sorted (ts : List Int) :
    (sortTruncate ts).Sorted (· ≤ ·) :=
  List.Pairwise.sublist (List.take_sublist 4 _)
    (List.sorted_insertionSort _ ts)

theorem sortTruncate_length_le (ts : List Int) : (sortTruncate ts).length ≤ 4 :=
  List.length_take_le 4 (List.insertionSort (· ≤ ·) ts)

theorem sortTruncate_ne_nil (ts : List Int) (h : ts ≠ []) :
    sortTruncate ts ≠ [] := by
  intro hc
  apply h
  have hlen : (sortTruncate ts).length = 0 := by rw [hc]; rfl
  rw [sortTruncate, List.length_take,
    (List.perm_insertionSort (· ≤ ·) ts).length_eq] at hlen
  have : ts.length = 0 := by omega
  exact List.eq_nil_of_length_eq_zero this

theorem sortTruncate_spec (ts : List Int) :
    ∃ all : List Int, all.Perm ts ∧ all.Sorted (· ≤ ·) ∧
      sortTruncate ts = all.take 4 :=
  ⟨_, List.perm_insertionSort _ ts, List.sorted_insertionSort _ ts, rfl⟩

/-! ### Serialization round-trip -/

theorem decodeCall_encodeCall (c : MonitoredCall) :
    decodeCall (encodeCall c) = some c := by
  obtain ⟨eat, spr⟩ := c
  cases eat <;> rfl

theorem decodeJourney_encodeJourney (j : MonitoredVehicleJourney) :
    decodeJourney (encodeJourney j) = some j := by
  obtain ⟨lr, dr, dn, ⟨eat, spr⟩⟩ := j
  cases lr <;> cases dr <;> cases dn <;> cases eat <;> rfl

theorem decodeJourneys_map (js : List MonitoredVehicleJourney) :
    decodeJourneys (.jarr (js.map encodeJourney)) = some js := by
  induction js with
  | nil => rfl
  | cons j rest ih =>
    have ih2 : decodeJourneyList (rest.map encodeJourney) = some rest := ih
    simp [decodeJourneys, decodeJourneyList, decodeJourney_encodeJourney, ih2]

theorem decodeCached_encodeCached (c : Cached) :
    decodeCached (encodeCached c) = some c := by
  obtain ⟨js, lt⟩ := c
  have h1 : decodeCached (encodeCached ⟨js, lt⟩)
      = match decodeJourneys (.jarr (js.map encodeJourney)) with
        | none => none
        | some js2 => some ⟨js2, lt⟩ := rfl
  rw [h1, decodeJourneys_map]

theorem load_cached_store_cache (journeys : List MonitoredVehicleJourney)
    (t now2 : Int) :
    load_cached (store_cache t journeys) now2 = .ok ⟨journeys, t⟩ := by
  simp [load_cached, store_cache, decodeCached_encodeCached]

/-! ### Association-list lemmas -/

theorem getAssoc_updAssoc_self {κ β : Type} [DecidableEq κ] (d : β) (f : β → β)
    (k : κ) (m : List (κ × β)) :
    getAssoc k (updAssoc d f k m) = some (f ((getAssoc k m).getD d)) := by
  induction m with
  | nil => simp [updAssoc, getAssoc]
  | cons p rest ih =>
    obtain ⟨k2, v⟩ := p
    by_cases hk : k2 = k
    · subst hk; simp [updAssoc, getAssoc]
    · simp [updAssoc, getAssoc, hk, ih]

theorem getAssoc_updAssoc_ne {κ β : Type} [DecidableEq κ] (d : β) (f : β → β)
    (k k2 : κ) (m : List (κ × β)) (h : k2 ≠ k) :
    getAssoc k (updAssoc d f k2 m) = getAssoc k m := by
  induction m with
  | nil => simp [updAssoc, getAssoc, h]
  | cons p rest ih =>
    obtain ⟨k3, v⟩ := p
    by_cases hk : k3 = k2
    · subst hk; simp [updAssoc, getAssoc, h]
    · by_cases h3 : k3 = k
      · subst h3; simp [updAssoc, getAssoc, hk]
      · simp [updAssoc, getAssoc, hk, h3, ih]

theorem updAssoc_ne_nil {κ β : Type} [DecidableEq κ] (d : β) (f : β → β)
    (k : κ) (m : List (κ × β)) : updAssoc d f k m ≠ [] := by
  cases m with
  | nil => simp [updAssoc]
  | cons p rest => obtain ⟨k2, v⟩ := p; simp only [updAssoc]; split <;> simp

theorem updAssoc_forall {κ β : Type} [DecidableEq κ] (P : β → Prop) (d : β)
    (f : β → β) (k : κ) (m : List (κ × β)) (hm : ∀ e ∈ m, P e.2)
    (hf : ∀ v, P v → P (f v)) (hd : P (f d)) :
    ∀ e ∈ updAssoc d f k m, P e.2 := by
  induction m with
  | nil =>
    intro e he
    have h1 : e = (k, f d) := List.mem_singleton.1 he
    rw [h1]
    exact hd
  | cons p rest ih =>
    obtain ⟨k2, v⟩ := p
    by_cases hk : k2 = k
    · subst hk
      simp only [updAssoc, if_pos rfl]
      intro e he
      rcases List.mem_cons.1 he with he | he
      · subst he; exact hf v (hm _ (List.mem_cons_self _ _))
      · exact hm _ (List.mem_cons_of_mem _ he)
    · simp only [updAssoc, if_neg hk]
      intro e he
      rcases List.mem_cons.1 he with he | he
      · subst he; exact hm _ (List.mem_cons_self _ _)
      · exact ih (fun e2 he2 => hm _ (List.mem_cons_of_mem _ he2)) e he

theorem getAssoc_mem_of_nodup {κ β : Type} [DecidableEq κ]
    (m : List (κ × β)) (hnd : (m.map Prod.fst).Nodup) (p : κ × β)
    (hp : p ∈ m) : getAssoc p.1 m = some p.2 := by
  induction m with
  | nil => cases hp
  | cons q rest ih =>
    obtain ⟨k2, v⟩ := q
    rcases List.mem_cons.1 hp with he | he
    · subst he; simp [getAssoc]
    · have hne : k2 ≠ p.1 := by
        intro hcon
        have : p.1 ∈ rest.map Prod.fst := List.mem_map_of_mem Prod.fst he
        rw [List.map_cons] at hnd
        exact (List.nodup_cons.1 hnd).1 (hcon ▸ this)
      have hnd2 : (rest.map Prod.fst).Nodup := by
        rw [List.map_cons] at hnd; exact (List.nodup_cons.1 hnd).2
      simp [getAssoc, hne, ih hnd2 he]

/-! ### Lemmas about the record loop -/

theorem processJourney_eq_of_not_bad (ds : List (String × String))
    (cfg : StopConfig) (pt : String → Option Int) (now : Int)
    (j : MonitoredVehicleJourney) (h : badTimeRecord pt j = false) :
    processJourney ds cfg pt now j = .ok (goodPair ds cfg pt now j) := by
  obtain ⟨lr, dr, dn, ⟨eat, spr⟩⟩ := j
  cases eat with
  | none => rfl
  | some e =>
    cases lr with
    | none => rfl
    | some l =>
      cases dr with
      | none => rfl
      | some d =>
        cases dn with
        | none => rfl
        | some dst =>
          cases hp : pt e with
          | none => simp [badTimeRecord, hp] at h
          | some t =>
            by_cases hlt : t < now <;>
              simp [processJourney, goodPair, hp, hlt]

theorem processJourney_error_of_bad (ds : List (String × String))
    (cfg : StopConfig) (pt : String → Option Int) (now : Int)
    (j : MonitoredVehicleJourney) (h : badTimeRecord pt j = true) :
    ∃ eat, processJourney ds cfg pt now j = .error (.timeParse eat) := by
  obtain ⟨lr, dr, dn, ⟨eat, spr⟩⟩ := j
  cases eat with
  | none => simp [badTimeRecord] at h
  | some e =>
    cases lr with
    | none => simp [badTimeRecord] at h
    | some l =>
      cases dr with
      | none => simp [badTimeRecord] at h
      | some d =>
        cases dn with
        | none => simp [badTimeRecord] at h
        | some dst =>
          have hp : pt e = none := by
            simpa [badTimeRecord, Option.isNone_iff_eq_none] using h
          exact ⟨e, by simp [processJourney, hp]⟩

theorem getAssoc_insertUpcoming (m : List (Line × List Int)) (k k2 : Line)
    (t : Int) :
    getAssoc k (insertUpcoming m k2 t) =
      if k2 = k then some ((getAssoc k m).getD [] ++ [t]) else getAssoc k m := by
  induction m with
  | nil =>
    by_cases h : k2 = k
    · subst h; simp [insertUpcoming, getAssoc]
    · simp [insertUpcoming, getAssoc, h]
  | cons p rest ih =>
    obtain ⟨k3, ts⟩ := p
    by_cases h32 : k3 = k2
    · subst h32
      by_cases h3k : k3 = k
      · subst h3k; simp [insertUpcoming, getAssoc]
      · simp [insertUpcoming, getAssoc, h3k]
    · by_cases h3k : k3 = k
      · subst h3k
        have hne : k2 ≠ k3 := fun he => h32 he.symm
        simp [insertUpcoming, getAssoc, h32, hne]
      · simp [insertUpcoming, getAssoc, h32, h3k, ih]

theorem buildUpcoming_error_iff (ds : List (String × String))
    (cfg : StopConfig) (pt : String → Option Int) (now : Int)
    (js : List MonitoredVehicleJourney) (m : List (Line × List Int)) :
    (∃ e, buildUpcoming ds cfg pt now js m = .error e) ↔
      ∃ j ∈ js, badTimeRecord pt j = true := by
  induction js generalizing m with
  | nil => simp [buildUpcoming]
  | cons j rest ih =>
    cases hb : badTimeRecord pt j with
    | true =>
      obtain ⟨eat, he⟩ := processJourney_error_of_bad ds cfg pt now j hb
      constructor
      · intro _; exact ⟨j, List.mem_cons_self _ _, hb⟩
      · intro _; exact ⟨.timeParse eat, by simp [buildUpcoming, he]⟩
    | false =>
      have hpj := processJourney_eq_of_not_bad ds cfg pt now j hb
      have hstep : ∀ m2, buildUpcoming ds cfg pt now (j :: rest) m2 =
          match goodPair ds cfg pt now j with
          | none => buildUpcoming ds cfg pt now rest m2
          | some (k, t) =>
            buildUpcoming ds cfg pt now rest (insertUpcoming m2 k t) := by
        intro m2
        cases hg : goodPair ds cfg pt now j with
        | none => simp [buildUpcoming, hpj, hg]
        | some p => obtain ⟨k, t⟩ := p; simp [buildUpcoming, hpj, hg]
      have hrest : ∀ m2,
          (∃ e, buildUpcoming ds cfg pt now rest m2 = .error e) ↔
            ∃ j2 ∈ rest, badTimeRecord pt j2 = true := fun m2 => ih m2
      have hmem : (∃ j2 ∈ rest, badTimeRecord pt j2 = true) ↔
          ∃ j2 ∈ j :: rest, badTimeRecord pt j2 = true := by
        constructor
        · rintro ⟨j2, hj2, hb2⟩; exact ⟨j2, List.mem_cons_of_mem _ hj2, hb2⟩
        · rintro ⟨j2, hj2, hb2⟩
          rcases List.mem_cons.1 hj2 with rfl | hj2
          · rw [hb] at hb2; cases hb2
          · exact ⟨j2, hj2, hb2⟩
      rw [hstep m]
      cases hg : goodPair ds cfg pt now j with
      | none => rw [hrest m, hmem]
      | some p => obtain ⟨k, t⟩ := p; rw [hrest _, hmem]

theorem buildUpcoming_ok_getAssoc (ds : List (String × String))
    (cfg : StopConfig) (pt : String → Option Int) (now : Int)
    (js : List MonitoredVehicleJourney) :
    ∀ m m', buildUpcoming ds cfg pt now js m = .ok m' → ∀ k : Line,
      (getAssoc k m').getD []
        = (getAssoc k m).getD [] ++ groupTimes ds cfg pt now js k := by
  induction js with
  | nil =>
    intro m m' h k
    have hm : m = m' := by
      have : (Except.ok m : Except Err _) = .ok m' := h
      injection this
    subst hm
    simp [groupTimes]
  | cons j rest ih =>
    intro m m' h k
    cases hb : badTimeRecord pt j with
    | true =>
      obtain ⟨eat, he⟩ := processJourney_error_of_bad ds cfg pt now j hb
      rw [show buildUpcoming ds cfg pt now (j :: rest) m = .error (.timeParse eat) from by
        simp [buildUpcoming, he]] at h
      cases h
    | false =>
      have hpj := processJourney_eq_of_not_bad ds cfg pt now j hb
      cases hg : goodPair ds cfg pt now j with
      | none =>
        rw [show buildUpcoming ds cfg pt now (j :: rest) m
            = buildUpcoming ds cfg pt now rest m from by
          simp [buildUpcoming, hpj, hg]] at h
        rw [ih m m' h k]
        simp [groupTimes, List.filterMap_cons, hg]
      | some p =>
        obtain ⟨k2, t⟩ := p
        rw [show buildUpcoming ds cfg pt now (j :: rest) m
            = buildUpcoming ds cfg pt now rest (insertUpcoming m k2 t) from by
          simp [buildUpcoming, hpj, hg]] at h
        rw [ih _ m' h k, getAssoc_insertUpcoming]
        by_cases hkk : k2 = k
        · subst hkk
          simp [groupTimes, List.filterMap_cons, hg, List.append_assoc]
        · simp [groupTimes, List.filterMap_cons, hg, hkk]

theorem buildUpcoming_ok_isSome (ds : List (String × String))
    (cfg : StopConfig) (pt : String → Option Int) (now : Int)
    (js : List MonitoredVehicleJourney) :
    ∀ m m', buildUpcoming ds cfg pt now js m = .ok m' → ∀ k : Line,
      ((getAssoc k m').isSome = true ↔
        (getAssoc k m).isSome = true ∨
          groupTimes ds cfg pt now js k ≠ []) := by
  induction js with
  | nil =>
    intro m m' h k
    have hm : m = m' := by injection h
    subst hm
    simp [groupTimes]
  | cons j rest ih =>
    intro m m' h k
    cases hb : badTimeRecord pt j with
    | true =>
      obtain ⟨eat, he⟩ := processJourney_error_of_bad ds cfg pt now j hb
      rw [show buildUpcoming ds cfg pt now (j :: rest) m
          = .error (.timeParse eat) from by simp [buildUpcoming, he]] at h
      cases h
    | false =>
      have hpj := processJourney_eq_of_not_bad ds cfg pt now j hb
      cases hg : goodPair ds cfg pt now j with
      | none =>
        rw [show buildUpcoming ds cfg pt now (j :: rest) m
            = buildUpcoming ds cfg pt now rest m from by
          simp [buildUpcoming, hpj, hg]] at h
        rw [ih m m' h k]
        simp [groupTimes, List.filterMap_cons, hg]
      | some p =>
        obtain ⟨k2, t⟩ := p
        rw [show buildUpcoming ds cfg pt now (j :: rest) m
            = buildUpcoming ds cfg pt now rest (insertUpcoming m k2 t) from by
          simp [buildUpcoming, hpj, hg]] at h
        rw [ih _ m' h k]
        rw [getAssoc_insertUpcoming]
        by_cases hkk : k2 = k
        · subst hkk
          simp [groupTimes, List.filterMap_cons, hg]
        · simp [groupTimes, List.filterMap_cons, hg, hkk]

theorem insertUpcoming_forall_ne_nil (m : List (Line × List Int)) (k : Line)
    (t : Int) (hm : ∀ p ∈ m, p.2 ≠ []) :
    ∀ p ∈ insertUpcoming m k t, p.2 ≠ [] := by
  induction m with
  | nil =>
    intro p hp
    have h1 : p = (k, [t]) := List.mem_singleton.1 hp
    rw [h1]
    simp
  | cons q rest ih =>
    obtain ⟨k2, ts⟩ := q
    by_cases hk : k2 = k
    · subst hk
      simp only [insertUpcoming, if_pos rfl]
      intro p hp
      rcases List.mem_cons.1 hp with rfl | hp
      · simp
      · exact hm _ (List.mem_cons_of_mem _ hp)
    · simp only [insertUpcoming, if_neg hk]
      intro p hp
      rcases List.mem_cons.1 hp with rfl | hp
      · exact hm _ (List.mem_cons_self _ _)
      · exact ih (fun q2 hq2 => hm _ (List.mem_cons_of_mem _ hq2)) p hp

theorem buildUpcoming_ok_ne_nil (ds : List (String × String))
    (cfg : StopConfig) (pt : String → Option Int) (now : Int)
    (js : List MonitoredVehicleJourney) :
    ∀ m m', buildUpcoming ds cfg pt now js m = .ok m' →
      (∀ p ∈ m, p.2 ≠ []) → ∀ p ∈ m', p.2 ≠ [] := by
  induction js with
  | nil =>
    intro m m' h hm
    have heq : m = m' := by injection h
    subst heq
    exact hm
  | cons j rest ih =>
    intro m m' h hm
    cases hb : badTimeRecord pt j with
    | true =>
      obtain ⟨eat, he⟩ := processJourney_error_of_bad ds cfg pt now j hb
      rw [show buildUpcoming ds cfg pt now (j :: rest) m
          = .error (.timeParse eat) from by simp [buildUpcoming, he]] at h
      cases h
    | false =>
      have hpj := processJourney_eq_of_not_bad ds cfg pt now j hb
      cases hg : goodPair ds cfg pt now j with
      | none =>
        rw [show buildUpcoming ds cfg pt now (j :: rest) m
            = buildUpcoming ds cfg pt now rest m from by
          simp [buildUpcoming, hpj, hg]] at h
        exact ih m m' h hm
      | some p =>
        obtain ⟨k2, t⟩ := p
        rw [show buildUpcoming ds cfg pt now (j :: rest) m
            = buildUpcoming ds cfg pt now rest (insertUpcoming m k2 t) from by
          simp [buildUpcoming, hpj, hg]] at h
        exact ih _ m' h (insertUpcoming_forall_ne_nil m k2 t hm)

theorem insertUpcoming_keys (m : List (Line × List Int)) (k : Line) (t : Int) :
    (insertUpcoming m k t).map Prod.fst = m.map Prod.fst ∨
    ((insertUpcoming m k t).map Prod.fst = m.map Prod.fst ++ [k] ∧
      k ∉ m.map Prod.fst) := by
  induction m with
  | nil => right; simp [insertUpcoming]
  | cons q rest ih =>
    obtain ⟨k2, ts⟩ := q
    by_cases hk : k2 = k
    · subst hk; left; simp [insertUpcoming]
    · rcases ih with ih | ⟨ih1, ih2⟩
      · left; simp [insertUpcoming, hk, ih]
      · right
        constructor
        · simp [insertUpcoming, hk, ih1]
        · simp only [List.map_cons, List.mem_cons]
          rintro (h | h)
          · exact hk h.symm
          · exact ih2 h

theorem insertUpcoming_nodup (m : List (Line × List Int)) (k : Line) (t : Int)
    (h : (m.map Prod.fst).Nodup) :
    ((insertUpcoming m k t).map Prod.fst).Nodup := by
  rcases insertUpcoming_keys m k t with hk | ⟨hk1, hk2⟩
  · rw [hk]; exact h
  · rw [hk1]
    rw [List.nodup_append]
    refine ⟨h, List.nodup_singleton k, ?_⟩
    intro a ha hb
    rw [List.mem_singleton] at hb
    subst hb
    exact hk2 ha

theorem buildUpcoming_ok_nodup (ds : List (String × String))
    (cfg : StopConfig) (pt : String → Option Int) (now : Int)
    (js : List MonitoredVehicleJourney) :
    ∀ m m', buildUpcoming ds cfg pt now js m = .ok m' →
      (m.map Prod.fst).Nodup → (m'.map Prod.fst).Nodup := by
  induction js with
  | nil =>
    intro m m' h hm
    have heq : m = m' := by injection h
    subst heq
    exact hm
  | cons j rest ih =>
    intro m m' h hm
    cases hb : badTimeRecord pt j with
    | true =>
      obtain ⟨eat, he⟩ := processJourney_error_of_bad ds cfg pt now j hb
      rw [show buildUpcoming ds cfg pt now (j :: rest) m
          = .error (.timeParse eat) from by simp [buildUpcoming, he]] at h
      cases h
    | false =>
      have hpj := processJourney_eq_of_not_bad ds cfg pt now j hb
      cases hg : goodPair ds cfg pt now j with
      | none =>
        rw [show buildUpcoming ds cfg pt now (j :: rest) m
            = buildUpcoming ds cfg pt now rest m from by
          simp [buildUpcoming, hpj, hg]] at h
        exact ih m m' h hm
      | some p =>
        obtain ⟨k2, t⟩ := p
        rw [show buildUpcoming ds cfg pt now (j :: rest) m
            = buildUpcoming ds cfg pt now rest (insertUpcoming m k2 t) from by
          simp [buildUpcoming, hpj, hg]] at h
        exact ih _ m' h (insertUpcoming_nodup m k2 t hm)

/-! ### Lemmas about the whole transform -/

theorem transform_ok_elim (ds : List (String × String)) (cfg : StopConfig)
    (pt : String → Option Int) (now : Int) (cached : Cached)
    (resp : UpcomingResponse)
    (h : transform_results ds cfg pt now cached = .ok resp) :
    ∃ m, buildUpcoming ds cfg pt now cached.journeys [] = .ok m ∧
      resp = ⟨cfg.agency, m.map (fun p => (p.1, sortTruncate p.2)),
        cached.live_time⟩ := by
  unfold transform_results at h
  cases hbu : buildUpcoming ds cfg pt now cached.journeys [] with
  | error e => rw [hbu] at h; cases h
  | ok m =>
    rw [hbu] at h
    have h2 : ({ agency := cfg.agency
               , upcoming := m.map (fun p => (p.1, sortTruncate p.2))
               , live_time := cached.live_time } : UpcomingResponse) = resp := by
      injection h
    exact ⟨m, rfl, h2.symm⟩

theorem getAssoc_map_sortTruncate (m : List (Line × List Int)) (k : Line) :
    getAssoc k (m.map fun p => (p.1, sortTruncate p.2))
      = (getAssoc k m).map sortTruncate := by
  induction m with
  | nil => rfl
  | cons p rest ih =>
    obtain ⟨k2, ts⟩ := p
    by_cases hk : k2 = k
    · subst hk; simp [getAssoc]
    · simp [getAssoc, hk, ih]

theorem transform_ok_group (ds : List (String × String)) (cfg : StopConfig)
    (pt : String → Option Int) (now : Int) (cached : Cached)
    (resp : UpcomingResponse)
    (h : transform_results ds cfg pt now cached = .ok resp) (k : Line) :
    (getAssoc k resp.upcoming).getD []
      = sortTruncate (groupTimes ds cfg pt now cached.journeys k) := by
  obtain ⟨m, hbu, hresp⟩ := transform_ok_elim ds cfg pt now cached resp h
  have hg := buildUpcoming_ok_getAssoc ds cfg pt now cached.journeys [] m hbu k
  rw [show (getAssoc k ([] : List (Line × List Int))).getD [] = [] from rfl,
    List.nil_append] at hg
  subst hresp
  rw [show ({ agency := cfg.agency
            , upcoming := m.map (fun p => (p.1, sortTruncate p.2))
            , live_time := cached.live_time } : UpcomingResponse).upcoming
      = m.map (fun p => (p.1, sortTruncate p.2)) from rfl]
  rw [getAssoc_map_sortTruncate]
  cases hgm : getAssoc k m with
  | none =>
    rw [hgm] at hg
    simp only [Option.getD_none] at hg
    simp [← hg, sortTruncate]
  | some ts =>
    rw [hgm] at hg
    simp only [Option.getD_some] at hg
    simp [hg]

theorem transform_ok_group_isSome (ds : List (String × String))
    (cfg : StopConfig) (pt : String → Option Int) (now : Int) (cached : Cached)
    (resp : UpcomingResponse)
    (h : transform_results ds cfg pt now cached = .ok resp) (k : Line) :
    ((getAssoc k resp.upcoming).isSome = true ↔
      groupTimes ds cfg pt now cached.journeys k ≠ []) := by
  obtain ⟨m, hbu, hresp⟩ := transform_ok_elim ds cfg pt now cached resp h
  have hg := buildUpcoming_ok_isSome ds cfg pt now cached.journeys [] m hbu k
  rw [show getAssoc k ([] : List (Line × List Int)) = none from rfl] at hg
  simp only [Option.isSome_none, Bool.false_eq_true, false_or] at hg
  subst hresp
  rw [show ({ agency := cfg.agency
            , upcoming := m.map (fun p => (p.1, sortTruncate p.2))
            , live_time := cached.live_time } : UpcomingResponse).upcoming
      = m.map (fun p => (p.1, sortTruncate p.2)) from rfl]
  rw [getAssoc_map_sortTruncate]
  rw [← hg]
  cases getAssoc k m <;> simp

theorem transform_ok_forall_mem (ds : List (String × String))
    (cfg : StopConfig) (pt : String → Option Int) (now : Int) (cached : Cached)
    (resp : UpcomingResponse)
    (h : transform_results ds cfg pt now cached = .ok resp) :
    ∀ p ∈ resp.upcoming,
      p.2 = sortTruncate (groupTimes ds cfg pt now cached.journeys p.1) := by
  obtain ⟨m, hbu, hresp⟩ := transform_ok_elim ds cfg pt now cached resp h
  have hnd : (m.map Prod.fst).Nodup :=
    buildUpcoming_ok_nodup ds cfg pt now cached.journeys [] m hbu (by simp)
  intro p hp
  rw [hresp] at hp
  simp only [List.mem_map] at hp
  obtain ⟨q, hq, hpq⟩ := hp
  have hqa : getAssoc q.1 m = some q.2 := getAssoc_mem_of_nodup m hnd q hq
  have hg := buildUpcoming_ok_getAssoc ds cfg pt now cached.journeys [] m hbu q.1
  rw [hqa, show (getAssoc q.1 ([] : List (Line × List Int))).getD [] = []
    from rfl, List.nil_append] at hg
  simp only [Option.getD_some] at hg
  rw [← hpq]
  simp [← hg]

theorem transform_ok_forall_ne_nil (ds : List (String × String))
    (cfg : StopConfig) (pt : String → Option Int) (now : Int) (cached : Cached)
    (resp : UpcomingResponse)
    (h : transform_results ds cfg pt now cached = .ok resp) :
    ∀ p ∈ resp.upcoming, p.2 ≠ [] := by
  obtain ⟨m, hbu, hresp⟩ := transform_ok_elim ds cfg pt now cached resp h
  have hne : ∀ p ∈ m, p.2 ≠ [] :=
    buildUpcoming_ok_ne_nil ds cfg pt now cached.journeys [] m hbu (by simp)
  intro p hp
  rw [hresp] at hp
  simp only [List.mem_map] at hp
  obtain ⟨q, hq, hpq⟩ := hp
  rw [← hpq]
  exact sortTruncate_ne_nil q.2 (hne q hq)

theorem transform_ok_live_time (ds : List (String × String)) (cfg : StopConfig)
    (pt : String → Option Int) (now : Int) (cached : Cached)
    (resp : UpcomingResponse)
    (h : transform_results ds cfg pt now cached = .ok resp) :
    resp.live_time = cached.live_time := by
  obtain ⟨m, hbu, hresp⟩ := transform_ok_elim ds cfg pt now cached resp h
  rw [hresp]

theorem transform_ok_agency (ds : List (String × String)) (cfg : StopConfig)
    (pt : String → Option Int) (now : Int) (cached : Cached)
    (resp : UpcomingResponse)
    (h : transform_results ds cfg pt now cached = .ok resp) :
    resp.agency = cfg.agency := by
  obtain ⟨m, hbu, hresp⟩ := transform_ok_elim ds cfg pt now cached resp h
  rw [hresp]

theorem goodPair_isSome_iff (ds : List (String × String)) (cfg : StopConfig)
    (pt : String → Option Int) (now : Int) (j : MonitoredVehicleJourney) :
    ((goodPair ds cfg pt now j).isSome = true ↔
      ∃ eat line direction destination t,
        j.monitored_call.expected_arrival_time = some eat ∧
        j.line_ref = some line ∧ j.direction_ref = some direction ∧
        j.destination_name = some destination ∧
        pt eat = some t ∧ now ≤ t) := by
  obtain ⟨lr, dr, dn, ⟨eat, spr⟩⟩ := j
  cases eat with
  | none => simp [goodPair]
  | some e =>
    cases lr with
    | none => simp [goodPair]
    | some l =>
      cases dr with
      | none => simp [goodPair]
      | some d =>
        cases dn with
        | none => simp [goodPair]
        | some dst =>
          cases hp : pt e with
          | none => simp [goodPair, hp]
          | some t =>
            by_cases hlt : t < now
            · simp [goodPair, hp, hlt]
            · simp [goodPair, hp, hlt]
              omega

/-! ### Lemmas about the read-path pipeline -/

theorem collectResponses_mem (ds : List (String × String))
    (pt : String → Option Int) (now : Int) :
    ∀ (cfgs : List (StopConfig × CacheFile)) rs,
      collectResponses ds pt now cfgs = .ok rs → ∀ r ∈ rs,
        ∃ p ∈ cfgs, load_upcoming_from_cache ds pt now p.1 p.2 = .ok r := by
  intro cfgs
  induction cfgs with
  | nil =>
    intro rs h r hr
    have h2 : ([] : List UpcomingResponse) = rs := by injection h
    subst h2
    cases hr
  | cons p rest ih =>
    obtain ⟨cfg, file⟩ := p
    intro rs h r hr
    cases hl : load_upcoming_from_cache ds pt now cfg file with
    | error e => rw [show collectResponses ds pt now ((cfg, file) :: rest)
        = .error e from by simp [collectResponses, hl]] at h; cases h
    | ok r0 =>
      cases hc : collectResponses ds pt now rest with
      | error e => rw [show collectResponses ds pt now ((cfg, file) :: rest)
          = .error e from by simp [collectResponses, hl, hc]] at h; cases h
      | ok rs0 =>
        rw [show collectResponses ds pt now ((cfg, file) :: rest)
            = .ok (r0 :: rs0) from by simp [collectResponses, hl, hc]] at h
        have h2 : r0 :: rs0 = rs := by injection h
        subst h2
        rcases List.mem_cons.1 hr with rfl | hr
        · exact ⟨(cfg, file), List.mem_cons_self _ _, hl⟩
        · obtain ⟨p2, hp2, hr2⟩ := ih rs0 hc r hr
          exact ⟨p2, List.mem_cons_of_mem _ hp2, hr2⟩

theorem collectResponses_mem2 (ds : List (String × String))
    (pt : String → Option Int) (now : Int) :
    ∀ (cfgs : List (StopConfig × CacheFile)) rs,
      collectResponses ds pt now cfgs = .ok rs → ∀ p ∈ cfgs,
        ∃ r ∈ rs, load_upcoming_from_cache ds pt now p.1 p.2 = .ok r := by
  intro cfgs
  induction cfgs with
  | nil => intro rs h p hp; cases hp
  | cons q rest ih =>
    obtain ⟨cfg, file⟩ := q
    intro rs h p hp
    cases hl : load_upcoming_from_cache ds pt now cfg file with
    | error e => rw [show collectResponses ds pt now ((cfg, file) :: rest)
        = .error e from by simp [collectResponses, hl]] at h; cases h
    | ok r0 =>
      cases hc : collectResponses ds pt now rest with
      | error e => rw [show collectResponses ds pt now ((cfg, file) :: rest)
          = .error e from by simp [collectResponses, hl, hc]] at h; cases h
      | ok rs0 =>
        rw [show collectResponses ds pt now ((cfg, file) :: rest)
            = .ok (r0 :: rs0) from by simp [collectResponses, hl, hc]] at h
        have h2 : r0 :: rs0 = rs := by injection h
        subst h2
        rcases List.mem_cons.1 hp with rfl | hp
        · exact ⟨r0, List.mem_cons_self _ _, hl⟩
        · obtain ⟨r2, hr2, hl2⟩ := ih rs0 hc p hp
          exact ⟨r2, List.mem_cons_of_mem _ hr2, hl2⟩

theorem DataAccess_load_stop_data_elim (ds : List (String × String))
    (pt : String → Option Int) (now : Int)
    (cfgs : List (StopConfig × CacheFile)) (data : StopData)
    (h : DataAccess_load_stop_data ds pt now cfgs = .ok data) :
    ∃ rs, collectResponses ds pt now cfgs = .ok rs ∧
      data = rs.foldl addResponse { agencies := [] } := by
  unfold DataAccess_load_stop_data at h
  cases hc : collectResponses ds pt now cfgs with
  | error e => rw [hc] at h; cases h
  | ok rs =>
    rw [hc] at h
    have h2 : rs.foldl addResponse { agencies := [] } = data := by injection h
    exact ⟨rs, rfl, h2.symm⟩

theorem addLine_getAssoc_ne (d : StopData) (ag a : String) (lt : Int)
    (line : Line) (up : List Int) (h : ag ≠ a) :
    getAssoc a (addLine d ag lt line up).agencies = getAssoc a d.agencies :=
  getAssoc_updAssoc_ne _ _ a ag d.agencies h

theorem addLine_getAssoc_self (d : StopData) (ag : String) (lt : Int)
    (line : Line) (up : List Int) :
    ∃ ad, getAssoc ag (addLine d ag lt line up).agencies = some ad ∧
      ad.live_time = lt := by
  rw [show (addLine d ag lt line up).agencies = updAssoc
      { live_time := 0, directions := [] }
      (fun ad => { live_time := lt
                 , directions := updAssoc { lines := [] }
                     (fun dl => { lines := dl.lines ++ [(line, up)] })
                     line.direction ad.directions }) ag d.agencies from rfl]
  rw [getAssoc_updAssoc_self]
  exact ⟨_, rfl, rfl⟩

theorem addLine_isSome (d : StopData) (ag a : String) (lt : Int) (line : Line)
    (up : List Int) :
    ((getAssoc a (addLine d ag lt line up).agencies).isSome = true ↔
      (getAssoc a d.agencies).isSome = true ∨ ag = a) := by
  by_cases h : ag = a
  · subst h
    obtain ⟨ad, had, _⟩ := addLine_getAssoc_self d ag lt line up
    simp [had]
  · rw [addLine_getAssoc_ne d ag a lt line up h]
    simp [h]

theorem addResponse_nil (d : StopData) (r : UpcomingResponse)
    (h : r.upcoming = []) : addResponse d r = d := by
  unfold addResponse
  rw [h]
  rfl

theorem addResponse_getAssoc_ne (d : StopData) (r : UpcomingResponse)
    (a : String) (h : r.agency ≠ a) :
    getAssoc a (addResponse d r).agencies = getAssoc a d.agencies := by
  unfold addResponse
  induction r.upcoming generalizing d with
  | nil => rfl
  | cons p ps ih =>
    rw [List.foldl_cons, ih (addLine d r.agency r.live_time p.1 p.2)]
    exact addLine_getAssoc_ne d r.agency a r.live_time p.1 p.2 h

theorem addResponse_live_time (d : StopData) (r : UpcomingResponse)
    (h : r.upcoming ≠ []) :
    ∀ ad, getAssoc r.agency (addResponse d r).agencies = some ad →
      ad.live_time = r.live_time := by
  obtain ⟨ag, ups, lt⟩ := r
  have h2 : ups ≠ [] := h
  show ∀ ad, getAssoc ag
      ((ups.foldl (fun d2 q => addLine d2 ag lt q.1 q.2) d)).agencies
        = some ad → ad.live_time = lt
  induction ups using List.reverseRecOn generalizing d with
  | nil => exact absurd rfl h2
  | append_singleton ps p _ =>
    intro ad had
    rw [List.foldl_append, List.foldl_cons, List.foldl_nil] at had
    obtain ⟨ad2, had2, hlt⟩ := addLine_getAssoc_self
      (ps.foldl (fun d2 q => addLine d2 ag lt q.1 q.2) d)
      ag lt p.1 p.2
    rw [had2] at had
    have h3 : ad2 = ad := by injection had
    rw [← h3]
    exact hlt

theorem addResponse_isSome (d : StopData) (r : UpcomingResponse) (a : String) :
    ((getAssoc a (addResponse d r).agencies).isSome = true ↔
      (getAssoc a d.agencies).isSome = true ∨
        (r.agency = a ∧ r.upcoming ≠ [])) := by
  cases hup : r.upcoming with
  | nil => rw [addResponse_nil d r hup]; simp
  | cons p ps =>
    have hgen : ∀ (qs : List (Line × List Int)) (d2 : StopData),
        ((getAssoc a ((qs.foldl
            (fun d3 q => addLine d3 r.agency r.live_time q.1 q.2)
            d2)).agencies).isSome = true ↔
          (getAssoc a d2.agencies).isSome = true ∨
            (qs ≠ [] ∧ r.agency = a)) := by
      intro qs
      induction qs with
      | nil => intro d2; simp
      | cons q qs2 ih =>
        intro d2
        rw [List.foldl_cons, ih]
        rw [addLine_isSome]
        constructor
        · rintro (⟨h1 | h1⟩ | ⟨_, h2⟩)
          · exact Or.inl h1
          · exact Or.inr ⟨List.cons_ne_nil _ _, h1⟩
          · exact Or.inr ⟨List.cons_ne_nil _ _, h2⟩
        · rintro (h1 | ⟨_, h2⟩)
          · exact Or.inl (Or.inl h1)
          · exact Or.inl (Or.inr h2)
    unfold addResponse
    rw [hup, hgen (p :: ps) d]
    constructor
    · rintro (h1 | ⟨_, h2⟩)
      · exact Or.inl h1
      · exact Or.inr ⟨h2, by simp [hup]⟩
    · rintro (h1 | ⟨h2, _⟩)
      · exact Or.inl h1
      · exact Or.inr ⟨List.cons_ne_nil _ _, h2⟩

theorem foldl_addResponse_isSome (a : String) :
    ∀ (rs : List UpcomingResponse) (d : StopData),
      ((getAssoc a (rs.foldl addResponse d).agencies).isSome = true ↔
        (getAssoc a d.agencies).isSome = true ∨
          ∃ r ∈ rs, r.agency = a ∧ r.upcoming ≠ []) := by
  intro rs
  induction rs with
  | nil => intro d; simp
  | cons r rs2 ih =>
    intro d
    rw [List.foldl_cons, ih, addResponse_isSome]
    constructor
    · rintro (⟨h1 | ⟨h1, h2⟩⟩ | ⟨r2, hr2, h3⟩)
      · exact Or.inl h1
      · exact Or.inr ⟨r, List.mem_cons_self _ _, h1, h2⟩
      · exact Or.inr ⟨r2, List.mem_cons_of_mem _ hr2, h3⟩
    · rintro (h1 | ⟨r2, hr2, h3, h4⟩)
      · exact Or.inl (Or.inl h1)
      · rcases List.mem_cons.1 hr2 with rfl | hr2
        · exact Or.inl (Or.inr ⟨h3, h4⟩)
        · exact Or.inr ⟨r2, hr2, h3, h4⟩

theorem foldl_addResponse_live_time (a : String) :
    ∀ (rs : List UpcomingResponse) (d : StopData) (ad : AgencyDirections),
      getAssoc a (rs.foldl addResponse d).agencies = some ad →
        getAssoc a d.agencies = some ad ∨
          ∃ r ∈ rs, r.agency = a ∧ ad.live_time = r.live_time := by
  intro rs
  induction rs with
  | nil => intro d ad h; exact Or.inl h
  | cons r rs2 ih =>
    intro d ad h
    rw [List.foldl_cons] at h
    rcases ih (addResponse d r) ad h with h1 | ⟨r2, hr2, h3, h4⟩
    · by_cases hag : r.agency = a
      · by_cases hup : r.upcoming = []
        · rw [addResponse_nil d r hup] at h1
          exact Or.inl h1
        · subst hag
          have := addResponse_live_time d r hup ad h1
          exact Or.inr ⟨r, List.mem_cons_self _ _, rfl, this⟩
      · rw [addResponse_getAssoc_ne d r a hag] at h1
        exact Or.inl h1
    · exact Or.inr ⟨r2, List.mem_cons_of_mem _ hr2, h3, h4⟩

theorem goodDL_push (line : Line) (up : List Int) (hup : up ≠ [])
    (dl : AgencyDirectionLines) (hdl : goodDL dl) :
    goodDL { lines := dl.lines ++ [(line, up)] } := by
  constructor
  · simp
  · intro pl hpl
    rcases List.mem_append.1 hpl with hpl | hpl
    · exact hdl.2 pl hpl
    · have h1 : pl = (line, up) := List.mem_singleton.1 hpl
      rw [h1]
      exact hup

theorem goodDL_single (line : Line) (up : List Int) (hup : up ≠ []) :
    goodDL { lines := ([] : List (Line × List Int)) ++ [(line, up)] } := by
  constructor
  · simp
  · intro pl hpl
    have h1 : pl = (line, up) := List.mem_singleton.1 hpl
    rw [h1]
    exact hup

theorem goodAD_addLine (lt : Int) (line : Line) (up : List Int)
    (hup : up ≠ []) (ad : AgencyDirections)
    (had : ∀ q ∈ ad.directions, goodDL q.2) :
    goodAD { live_time := lt
           , directions := updAssoc { lines := [] }
               (fun dl => { lines := dl.lines ++ [(line, up)] })
               line.direction ad.directions } := by
  constructor
  · exact updAssoc_ne_nil _ _ _ _
  · intro q hq
    exact updAssoc_forall goodDL { lines := [] }
      (fun dl => { lines := dl.lines ++ [(line, up)] })
      line.direction ad.directions had
      (goodDL_push line up hup) (goodDL_single line up hup) q hq

theorem addLine_good (d : StopData) (ag : String) (lt : Int) (line : Line)
    (up : List Int) (hup : up ≠ []) (hd : goodStopData d) :
    goodStopData (addLine d ag lt line up) := by
  intro e he
  refine updAssoc_forall goodAD { live_time := 0, directions := [] }
    (fun ad => { live_time := lt
               , directions := updAssoc { lines := [] }
                   (fun dl => { lines := dl.lines ++ [(line, up)] })
                   line.direction ad.directions })
    ag d.agencies hd ?_ ?_ e he
  · intro ad had
    exact goodAD_addLine lt line up hup ad had.2
  · exact goodAD_addLine lt line up hup
      { live_time := 0, directions := [] } (by intro q hq; cases hq)

theorem addResponse_good (d : StopData) (r : UpcomingResponse)
    (hr : ∀ p ∈ r.upcoming, p.2 ≠ []) (hd : goodStopData d) :
    goodStopData (addResponse d r) := by
  unfold addResponse
  have hgen : ∀ (qs : List (Line × List Int)) (d2 : StopData),
      (∀ p ∈ qs, p.2 ≠ []) → goodStopData d2 →
        goodStopData (qs.foldl
          (fun d3 q => addLine d3 r.agency r.live_time q.1 q.2) d2) := by
    intro qs
    induction qs with
    | nil => intro d2 _ hd2; exact hd2
    | cons q qs2 ih =>
      intro d2 hq hd2
      rw [List.foldl_cons]
      exact ih _ (fun p hp => hq p (List.mem_cons_of_mem _ hp))
        (addLine_good d2 r.agency r.live_time q.1 q.2
          (hq q (List.mem_cons_self _ _)) hd2)
  exact hgen r.upcoming d hr hd

theorem foldl_addResponse_good :
    ∀ (rs : List UpcomingResponse) (d : StopData),
      (∀ r ∈ rs, ∀ p ∈ r.upcoming, p.2 ≠ []) → goodStopData d →
        goodStopData (rs.foldl addResponse d) := by
  intro rs
  induction rs with
  | nil => intro d _ hd; exact hd
  | cons r rs2 ih =>
    intro d hr hd
    rw [List.foldl_cons]
    exact ih _ (fun r2 hr2 => hr r2 (List.mem_cons_of_mem _ hr2))
      (addResponse_good d r (hr r (List.mem_cons_self _ _)) hd)

/-! ### Lemmas about the refresh tick -/

theorem setCache_getAssoc_self (st : CacheState) (a : String) (c : Cached) :
    getAssoc a (setCache st a c) = some c := by
  unfold setCache
  rw [getAssoc_updAssoc_self]

theorem setCache_getAssoc_ne (st : CacheState) (a b : String) (c : Cached)
    (h : b ≠ a) : getAssoc a (setCache st b c) = getAssoc a st :=
  getAssoc_updAssoc_ne _ _ _ _ _ h

theorem foldl_effect_getAssoc_ne (now : Int) (a : String) :
    ∀ (ts : List TickTask) (st : CacheState), (∀ t ∈ ts, t.agency ≠ a) →
      getAssoc a (ts.foldl
        (fun s t => (request_and_cache_effect now s t).1) st)
      = getAssoc a st := by
  intro ts
  induction ts with
  | nil => intro st _; rfl
  | cons t0 rest ih =>
    intro st hne
    rw [List.foldl_cons]
    rw [ih _ (fun t ht => hne t (List.mem_cons_of_mem _ ht))]
    cases ho : t0.outcome with
    | none => simp [request_and_cache_effect, ho]
    | some records =>
      simp only [request_and_cache_effect, ho]
      exact setCache_getAssoc_ne st a t0.agency _
        (hne t0 (List.mem_cons_self _ _))

theorem foldl_effect_success (now : Int) :
    ∀ (ts : List TickTask) (st : CacheState),
      ((ts.map TickTask.agency).Nodup) → ∀ t ∈ ts, ∀ records,
        t.outcome = some records →
          getAssoc t.agency (ts.foldl
            (fun s t2 => (request_and_cache_effect now s t2).1) st)
          = some ⟨records, now⟩ := by
  intro ts
  induction ts with
  | nil => intro st _ t ht; cases ht
  | cons t0 rest ih =>
    intro st hnd t ht records ho
    have hnd2 : (rest.map TickTask.agency).Nodup := by
      rw [List.map_cons] at hnd
      exact (List.nodup_cons.1 hnd).2
    rcases List.mem_cons.1 ht with rfl | ht
    · have heff : (request_and_cache_effect now st t).1
          = setCache st t.agency ⟨records, now⟩ := by
        simp [request_and_cache_effect, ho]
      rw [List.foldl_cons, heff]
      have hne : ∀ t2 ∈ rest, t2.agency ≠ t.agency := by
        intro t2 ht2 hcon
        rw [List.map_cons] at hnd
        exact (List.nodup_cons.1 hnd).1
          (hcon ▸ List.mem_map_of_mem TickTask.agency ht2)
      rw [foldl_effect_getAssoc_ne now t.agency rest _ hne]
      exact setCache_getAssoc_self st t.agency _
    · rw [List.foldl_cons]
      exact ih _ hnd2 t ht records ho

theorem tick_split (now : Int) (tf : TickTask) (hf : tf.outcome = none) :
    ∀ (pre : List TickTask) (st : CacheState) (post : List TickTask),
      (∀ t ∈ pre, t.outcome.isSome = true) →
        Client_load_stop_data now st (pre ++ tf :: post)
          = (pre.foldl (fun s t => (request_and_cache_effect now s t).1) st,
             false) := by
  intro pre
  induction pre with
  | nil =>
    intro st post _
    simp [Client_load_stop_data, request_and_cache_effect, hf]
  | cons t0 rest ih =>
    intro st post hpre
    obtain ⟨records, ho⟩ := Option.isSome_iff_exists.1
      (hpre t0 (List.mem_cons_self _ _))
    rw [List.cons_append]
    rw [show Client_load_stop_data now st (t0 :: (rest ++ tf :: post))
        = Client_load_stop_data now (setCache st t0.agency ⟨records, now⟩)
            (rest ++ tf :: post) from by
      simp [Client_load_stop_data, request_and_cache_effect, ho]]
    rw [ih _ post (fun t ht => hpre t (List.mem_cons_of_mem _ ht))]
    rw [List.foldl_cons]
    simp [request_and_cache_effect, ho]

/-! ### Claim theorems -/

/-- C2, counterexample.  `line_prefix_subs` is a `HashMap`, so the transform
scans its rules in the map's unspecified iteration order, not in configuration
order.  The configured rule set containing ("71", "71X") and ("7", "7X") can
be iterated as [("7", "7X"), ("71", "71X")] (a permutation of the
configuration order), and then the raw line "71A" resolves to "7X", not
"71X": the result is not always "71X". -/
theorem c2_counterexample :
    subLine [("7", "7X"), ("71", "71X")] "71A" = "7X"
    ∧ ("7X" : String) ≠ "71X"
    ∧ ([("7", "7X"), ("71", "71X")] : List (String × String)).Perm
        [("71", "71X"), ("7", "7X")]
    ∧ transform_results [] ⟨"AG", [("7", "7X"), ("71", "71X")], []⟩ ptW 0
        ⟨[⟨some "71A", some "IB", some "Downtown", ⟨some "10", "stopA"⟩⟩], 3⟩
      = .ok ⟨"AG", [(⟨"7X", "AG", "IB", "Downtown"⟩, [10])], 3⟩ :=
  ⟨by decide, by decide, by decide, by decide⟩

/-- C2, amended: the transform resolves the line label by scanning the
(prefix, replacement) rules in the iteration order of the per-agency
`HashMap` — an unspecified order independent of the configuration file — and
replaces the entire label with the replacement of the first rule in that
order whose prefix is a starts-with prefix of the raw label; a label matching
no rule is kept unchanged. -/
theorem c2_amended_first_match (subs : List (String × String)) (line : String) :
    subLine subs line
      = ((subs.find? fun p => startsWith line p.1).map Prod.snd).getD line :=
  subLine_eq_find subs line

/-- C5: the transform fails if and only if some record that passed the
missing-field filter (all four of `expected_arrival_time`, `line_ref`,
`direction_ref`, `destination_name` present) has a present
`expected_arrival_time` that does not parse; an `.error` result carries no
`UpcomingResponse`, so the whole per-agency batch produces no output. -/
theorem c5_parse_failure_aborts (ds : List (String × String))
    (cfg : StopConfig) (pt : String → Option Int) (now : Int)
    (cached : Cached) :
    ((∃ e, transform_results ds cfg pt now cached = .error e) ↔
      ∃ j ∈ cached.journeys, badTimeRecord pt j = true)
    ∧ ∀ j : MonitoredVehicleJourney, (badTimeRecord pt j = true ↔
        ∃ eat line direction destination,
          j.monitored_call.expected_arrival_time = some eat ∧
          j.line_ref = some line ∧ j.direction_ref = some direction ∧
          j.destination_name = some destination ∧ pt eat = none) := by
  constructor
  · rw [← buildUpcoming_error_iff ds cfg pt now cached.journeys []]
    unfold transform_results
    cases hbu : buildUpcoming ds cfg pt now cached.journeys [] with
    | error e => simp
    | ok m => simp
  · intro j
    obtain ⟨lr, dr, dn, ⟨eat, spr⟩⟩ := j
    cases eat with
    | none => simp [badTimeRecord]
    | some e =>
      cases lr with
      | none => simp [badTimeRecord]
      | some l =>
        cases dr with
        | none => simp [badTimeRecord]
        | some d =>
          cases dn with
          | none => simp [badTimeRecord]
          | some dst =>
            cases hp : pt e with
            | none => simp [badTimeRecord, hp]
            | some t => simp [badTimeRecord, hp]

/-- C6: the final design's cache read never rejects a stored snapshot because
of its age: the result does not depend on the read time; every stored,
well-formed snapshot is returned whole however old its `live_time`; and a
read fails exactly when the file is absent or its contents cannot be
deserialized. -/
theorem c6_no_staleness_rejection :
    (∀ (file : CacheFile) (now now2 : Int),
        load_cached file now = load_cached file now2)
    ∧ (∀ (c : Cached) (now : Int),
        load_cached (.content (encodeCached c)) now = .ok c)
    ∧ ∀ (file : CacheFile) (now : Int),
        ((∃ e, load_cached file now = .error e) ↔
          (file = .absent ∨ file = .emptyFile ∨
            ∃ v, file = .content v ∧ decodeCached v = none)) := by
  refine ⟨?_, ?_, ?_⟩
  · intro file now now2
    cases file with
    | absent => rfl
    | emptyFile => rfl
    | content v => cases hd : decodeCached v <;> simp [load_cached, hd]
  · intro c now
    simp [load_cached, decodeCached_encodeCached]
  · intro file now
    cases file with
    | absent =>
      constructor
      · intro _; exact Or.inl rfl
      · intro _; exact ⟨.notFound, rfl⟩
    | emptyFile =>
      constructor
      · intro _; exact Or.inr (Or.inl rfl)
      · intro _; exact ⟨.corrupt, rfl⟩
    | content v =>
      cases hd : decodeCached v with
      | none =>
        constructor
        · intro _; exact Or.inr (Or.inr ⟨v, rfl, hd⟩)
        · intro _; exact ⟨.corrupt, by simp [load_cached, hd]⟩
      | some c =>
        constructor
        · rintro ⟨e, he⟩
          rw [show load_cached (.content v) now = .ok c from by
            simp [load_cached, hd]] at he
          cases he
        · rintro (h | h | ⟨v2, hv2, hd2⟩)
          · cases h
          · cases h
          · have h3 : v = v2 := by injection hv2
            rw [← h3] at hd2
            rw [hd2] at hd
            cases hd

/-- C8: the per-agency snapshot serialization round-trips exactly: writing a
snapshot via `store_cache` and reading it back via `load_cached` yields the
same records and the same `captured_at` timestamp, and the underlying
serde encoding of `Cached` is a section of its decoding. -/
theorem c8_cache_round_trip :
    (∀ (journeys : List MonitoredVehicleJourney) (t now2 : Int),
        load_cached (store_cache t journeys) now2 = .ok ⟨journeys, t⟩)
    ∧ ∀ c : Cached, decodeCached (encodeCached c) = some c :=
  ⟨load_cached_store_cache, decodeCached_encodeCached⟩

/-- C9, counterexample.  `store_cache` truncates the cache file in place
(`File::create`) before writing the new bytes, so a reader concurrent with a
write can observe the truncated (empty) file: with old snapshot `⟨[], 0⟩` on
disk and `⟨[mkJ "10"], 5⟩` being written, a read at the phase right after
`File::create` fails with a deserialization error, observing neither the
complete old snapshot nor the complete new one, while reads strictly before
and after the write see the old and the new snapshot respectively. -/
theorem c9_counterexample :
    load_cached (storeCacheFileState
        (store_cache 0 []) [mkJ "10"] 5 .created) 9 = .error .corrupt
    ∧ (Except.error Err.corrupt : Except Err Cached) ≠ .ok ⟨[], 0⟩
    ∧ (Except.error Err.corrupt : Except Err Cached) ≠ .ok ⟨[mkJ "10"], 5⟩
    ∧ load_cached (storeCacheFileState
        (store_cache 0 []) [mkJ "10"] 5 .before) 9 = .ok ⟨[], 0⟩
    ∧ load_cached (storeCacheFileState
        (store_cache 0 []) [mkJ "10"] 5 .written) 9 = .ok ⟨[mkJ "10"], 5⟩ :=
  ⟨rfl, by decide, by decide, by decide, by decide⟩

/-- C9, amended: a snapshot write is not atomic with respect to readers.
`store_cache` truncates the agency's file in place and then writes the new
serialized snapshot; a read strictly before the truncation observes the
complete old file, a read after the final write observes the complete new
snapshot, but a read between truncation and write observes an empty file and
fails with a deserialization error. -/
theorem c9_amended_write_phases (old : CacheFile)
    (journeys : List MonitoredVehicleJourney) (tW readNow : Int)
    (phase : WritePhase) :
    load_cached (storeCacheFileState old journeys tW phase) readNow =
      match phase with
      | .before => load_cached old readNow
      | .created => .error .corrupt
      | .written => .ok ⟨journeys, tW⟩ := by
  cases phase with
  | before => rfl
  | created => rfl
  | written =>
    exact load_cached_store_cache journeys tW readNow

theorem load_upcoming_ok_agency (ds : List (String × String))
    (pt : String → Option Int) (now : Int) (cfg : StopConfig)
    (file : CacheFile) (r : UpcomingResponse)
    (h : load_upcoming_from_cache ds pt now cfg file = .ok r) :
    r.agency = cfg.agency := by
  unfold load_upcoming_from_cache at h
  cases hlc : load_cached file now with
  | error e => rw [hlc] at h; cases h
  | ok cached => rw [hlc] at h; exact transform_ok_agency ds cfg pt now cached r h

theorem load_upcoming_ok_ne_nil (ds : List (String × String))
    (pt : String → Option Int) (now : Int) (cfg : StopConfig)
    (file : CacheFile) (r : UpcomingResponse)
    (h : load_upcoming_from_cache ds pt now cfg file = .ok r) :
    ∀ p ∈ r.upcoming, p.2 ≠ [] := by
  unfold load_upcoming_from_cache at h
  cases hlc : load_cached file now with
  | error e => rw [hlc] at h; cases h
  | ok cached =>
    rw [hlc] at h
    exact transform_ok_forall_ne_nil ds cfg pt now cached r h

/-- C3: in every group of a successful transform the retained times are
ascending with at most 4 entries, and they are exactly the first 4 entries of
a sorted permutation of the group's surviving arrival times — truncation
happens only after sorting. -/
theorem c3_sorted_truncated (ds : List (String × String)) (cfg : StopConfig)
    (pt : String → Option Int) (now : Int) (cached : Cached)
    (resp : UpcomingResponse)
    (h : transform_results ds cfg pt now cached = .ok resp) :
    ∀ p ∈ resp.upcoming,
      p.2.Sorted (· ≤ ·) ∧ p.2.length ≤ 4 ∧
      ∃ all : List Int,
        all.Perm (groupTimes ds cfg pt now cached.journeys p.1) ∧
        all.Sorted (· ≤ ·) ∧ p.2 = all.take 4 := by
  intro p hp
  have hmem := transform_ok_forall_mem ds cfg pt now cached resp h p hp
  refine ⟨?_, ?_, ?_⟩
  · rw [hmem]; exact sortTruncate_sorted _
  · rw [hmem]; exact sortTruncate_length_le _
  · rw [hmem]; exact sortTruncate_spec _

/-- C3, witness: six arrivals for one key at minutes [1, 50, 2, 40, 3, 30]
from now transform to exactly the 4 soonest in order [1, 2, 3, 30], and the
theorem applies to that run. -/
theorem c3_witness :
    transform_results [] ⟨"AG", [], []⟩ ptW 0
        ⟨[mkJ "1", mkJ "50", mkJ "2", mkJ "40", mkJ "3", mkJ "30"], 0⟩
      = .ok ⟨"AG", [(⟨"L1", "AG", "IB", "Downtown"⟩, [1, 2, 3, 30])], 0⟩
    ∧ ∀ p ∈ (⟨"AG", [(⟨"L1", "AG", "IB", "Downtown"⟩, [1, 2, 3, 30])], 0⟩
          : UpcomingResponse).upcoming,
        p.2.Sorted (· ≤ ·) ∧ p.2.length ≤ 4 ∧
        ∃ all : List Int,
          all.Perm (groupTimes [] ⟨"AG", [], []⟩ ptW 0
            [mkJ "1", mkJ "50", mkJ "2", mkJ "40", mkJ "3", mkJ "30"] p.1) ∧
          all.Sorted (· ≤ ·) ∧ p.2 = all.take 4 :=
  ⟨by decide,
   c3_sorted_truncated [] ⟨"AG", [], []⟩ ptW 0
     ⟨[mkJ "1", mkJ "50", mkJ "2", mkJ "40", mkJ "3", mkJ "30"], 0⟩
     ⟨"AG", [(⟨"L1", "AG", "IB", "Downtown"⟩, [1, 2, 3, 30])], 0⟩
     (by decide)⟩

/-- C4: under a successful transform, a record survives into the grouping
(its `goodPair` is present) exactly when all four of its optional fields are
present and its parsed time is not before `now`; each output group holds
exactly the sorted-then-truncated surviving times of its key; and a key
appears in the output exactly when some record contributed to it.  Records
with an absent field or a past time are skipped silently (the transform still
returned `.ok`). -/
theorem c4_record_filter (ds : List (String × String)) (cfg : StopConfig)
    (pt : String → Option Int) (now : Int) (cached : Cached)
    (resp : UpcomingResponse)
    (h : transform_results ds cfg pt now cached = .ok resp) :
    (∀ j ∈ cached.journeys,
        ((goodPair ds cfg pt now j).isSome = true ↔
          ∃ eat line direction destination t,
            j.monitored_call.expected_arrival_time = some eat ∧
            j.line_ref = some line ∧ j.direction_ref = some direction ∧
            j.destination_name = some destination ∧
            pt eat = some t ∧ now ≤ t))
    ∧ (∀ k : Line, (getAssoc k resp.upcoming).getD []
        = sortTruncate (groupTimes ds cfg pt now cached.journeys k))
    ∧ ∀ k : Line, ((getAssoc k resp.upcoming).isSome = true ↔
        groupTimes ds cfg pt now cached.journeys k ≠ []) := by
  refine ⟨?_, ?_, ?_⟩
  · intro j _
    exact goodPair_isSome_iff ds cfg pt now j
  · intro k
    exact transform_ok_group ds cfg pt now cached resp h k
  · intro k
    exact transform_ok_group_isSome ds cfg pt now cached resp h k

/-- C4, witness: a batch with a good record (arriving at 10), a record with
`destination_name` absent, and a record 1 unit in the past transforms without
error into a single group holding only the good record's time, and the
theorem applies to that run. -/
theorem c4_witness :
    transform_results [] ⟨"AG", [], []⟩ ptW 0
        ⟨[mkJ "10",
          ⟨some "L1", some "IB", none, ⟨some "10", "stopA"⟩⟩,
          mkJ "-1"], 7⟩
      = .ok ⟨"AG", [(⟨"L1", "AG", "IB", "Downtown"⟩, [10])], 7⟩
    ∧ ((∀ j ∈ (⟨[mkJ "10",
            ⟨some "L1", some "IB", none, ⟨some "10", "stopA"⟩⟩,
            mkJ "-1"], 7⟩ : Cached).journeys,
          ((goodPair [] ⟨"AG", [], []⟩ ptW 0 j).isSome = true ↔
            ∃ eat line direction destination t,
              j.monitored_call.expected_arrival_time = some eat ∧
              j.line_ref = some line ∧ j.direction_ref = some direction ∧
              j.destination_name = some destination ∧
              ptW eat = some t ∧ 0 ≤ t))
        ∧ (∀ k : Line,
            (getAssoc k (⟨"AG", [(⟨"L1", "AG", "IB", "Downtown"⟩, [10])], 7⟩
                : UpcomingResponse).upcoming).getD []
              = sortTruncate (groupTimes [] ⟨"AG", [], []⟩ ptW 0
                  (⟨[mkJ "10",
                     ⟨some "L1", some "IB", none, ⟨some "10", "stopA"⟩⟩,
                     mkJ "-1"], 7⟩ : Cached).journeys k))
        ∧ ∀ k : Line,
            ((getAssoc k (⟨"AG", [(⟨"L1", "AG", "IB", "Downtown"⟩, [10])], 7⟩
                : UpcomingResponse).upcoming).isSome = true ↔
              groupTimes [] ⟨"AG", [], []⟩ ptW 0
                (⟨[mkJ "10",
                   ⟨some "L1", some "IB", none, ⟨some "10", "stopA"⟩⟩,
                   mkJ "-1"], 7⟩ : Cached).journeys k ≠ [])) :=
  ⟨by decide,
   c4_record_filter [] ⟨"AG", [], []⟩ ptW 0
     ⟨[mkJ "10",
       ⟨some "L1", some "IB", none, ⟨some "10", "stopA"⟩⟩,
       mkJ "-1"], 7⟩
     ⟨"AG", [(⟨"L1", "AG", "IB", "Downtown"⟩, [10])], 7⟩
     (by decide)⟩

/-- C7: for every agency present in the pipeline's output, the
`live_time` of its entry equals the `captured_at` (`live_time`) that
`store_cache` stamped at cache-write time for that agency's snapshot — the
wall-clock moment of the last successful fetch — carried through cache read
and transform unchanged, whatever the read time `tRead` is. -/
theorem c7_live_time_from_write (ds : List (String × String))
    (pt : String → Option Int) (tRead : Int)
    (entries : List (StopConfig × Int × List MonitoredVehicleJourney))
    (data : StopData)
    (h : DataAccess_load_stop_data ds pt tRead
        (entries.map (fun e => (e.1, store_cache e.2.1 e.2.2))) = .ok data) :
    ∀ a ad, getAssoc a data.agencies = some ad →
      ∃ e ∈ entries, e.1.agency = a ∧ ad.live_time = e.2.1 := by
  obtain ⟨rs, hc, hdata⟩ := DataAccess_load_stop_data_elim _ _ _ _ _ h
  intro a ad had
  rw [hdata] at had
  rcases foldl_addResponse_live_time a rs _ ad had with h1 | ⟨r, hr, hag, hlt⟩
  · simp [getAssoc] at h1
  · obtain ⟨p, hp, hl⟩ := collectResponses_mem ds pt tRead _ rs hc r hr
    obtain ⟨e, he, hpe⟩ := List.mem_map.1 hp
    rw [← hpe] at hl
    have hl2 : transform_results ds e.1 pt tRead ⟨e.2.2, e.2.1⟩ = .ok r := by
      unfold load_upcoming_from_cache at hl
      rw [load_cached_store_cache] at hl
      exact hl
    have hlive := transform_ok_live_time ds e.1 pt tRead _ r hl2
    have hagency := transform_ok_agency ds e.1 pt tRead _ r hl2
    refine ⟨e, he, ?_, ?_⟩
    · rw [← hagency]; exact hag
    · rw [hlt, hlive]

/-- C7, witness: one agency whose snapshot was stored at time 7 and read at
time 0 surfaces `live_time = 7` in the aggregate, and the theorem applies to
that run. -/
theorem c7_witness :
    DataAccess_load_stop_data [] ptW 0
        ([((⟨"AG", [], []⟩ : StopConfig), ((7 : Int), [mkJ "10"]))].map
          (fun e => (e.1, store_cache e.2.1 e.2.2)))
      = .ok ⟨[("AG", ⟨7, [("IB", ⟨[(⟨"L1", "AG", "IB", "Downtown"⟩,
          [10])]⟩)]⟩)]⟩
    ∧ ∀ a ad, getAssoc a (⟨[("AG", ⟨7, [("IB",
          ⟨[(⟨"L1", "AG", "IB", "Downtown"⟩, [10])]⟩)]⟩)]⟩
            : StopData).agencies = some ad →
        ∃ e ∈ [((⟨"AG", [], []⟩ : StopConfig), ((7 : Int), [mkJ "10"]))],
          e.1.agency = a ∧ ad.live_time = e.2.1 :=
  ⟨by decide,
   c7_live_time_from_write [] ptW 0
     [((⟨"AG", [], []⟩ : StopConfig), ((7 : Int), [mkJ "10"]))]
     ⟨[("AG", ⟨7, [("IB", ⟨[(⟨"L1", "AG", "IB", "Downtown"⟩, [10])]⟩)]⟩)]⟩
     (by decide)⟩

/-- C10: in a successful read, an agency key is present in the aggregate
exactly when its read-and-transform produced at least one group; and every
agency entry has at least one direction, every direction at least one line,
and every line a non-empty upcoming list. -/
theorem c10_presence_and_nonempty (ds : List (String × String))
    (pt : String → Option Int) (now : Int)
    (cfgs : List (StopConfig × CacheFile)) (data : StopData)
    (h : DataAccess_load_stop_data ds pt now cfgs = .ok data) :
    (∀ a, ((getAssoc a data.agencies).isSome = true ↔
        ∃ p ∈ cfgs, p.1.agency = a ∧
          ∃ resp, load_upcoming_from_cache ds pt now p.1 p.2 = .ok resp ∧
            resp.upcoming ≠ []))
    ∧ goodStopData data := by
  obtain ⟨rs, hc, hdata⟩ := DataAccess_load_stop_data_elim _ _ _ _ _ h
  constructor
  · intro a
    rw [hdata, foldl_addResponse_isSome]
    constructor
    · rintro (h1 | ⟨r, hr, hag, hne⟩)
      · simp [getAssoc] at h1
      · obtain ⟨p, hp, hl⟩ := collectResponses_mem ds pt now cfgs rs hc r hr
        have hagp := load_upcoming_ok_agency ds pt now p.1 p.2 r hl
        exact ⟨p, hp, by rw [← hagp]; exact hag, r, hl, hne⟩
    · rintro ⟨p, hp, hag, r, hl, hne⟩
      obtain ⟨r2, hr2, hl2⟩ := collectResponses_mem2 ds pt now cfgs rs hc p hp
      have hrr : r = r2 := by
        rw [hl] at hl2
        injection hl2
      refine Or.inr ⟨r2, hr2, ?_, ?_⟩
      · rw [← hrr]
        rw [load_upcoming_ok_agency ds pt now p.1 p.2 r hl]
        exact hag
      · rw [← hrr]
        exact hne
  · rw [hdata]
    refine foldl_addResponse_good rs _ ?_ ?_
    · intro r hr
      obtain ⟨p, hp, hl⟩ := collectResponses_mem ds pt now cfgs rs hc r hr
      exact load_upcoming_ok_ne_nil ds pt now p.1 p.2 r hl
    · intro e he
      cases he

/-- C10, witness: a single-agency run whose snapshot yields one surviving
arrival produces an aggregate with that agency present, one direction, one
line and a non-empty upcoming list, and the theorem applies to that run. -/
theorem c10_witness :
    DataAccess_load_stop_data [] ptW 0
        [((⟨"SF", [], []⟩ : StopConfig), store_cache 3 [mkJ "10"])]
      = .ok ⟨[("SF", ⟨3, [("IB", ⟨[(⟨"L1", "SF", "IB", "Downtown"⟩,
          [10])]⟩)]⟩)]⟩
    ∧ ((∀ a, ((getAssoc a (⟨[("SF", ⟨3, [("IB",
            ⟨[(⟨"L1", "SF", "IB", "Downtown"⟩, [10])]⟩)]⟩)]⟩
              : StopData).agencies).isSome = true ↔
          ∃ p ∈ [((⟨"SF", [], []⟩ : StopConfig), store_cache 3 [mkJ "10"])],
            p.1.agency = a ∧
              ∃ resp, load_upcoming_from_cache [] ptW 0 p.1 p.2 = .ok resp ∧
                resp.upcoming ≠ []))
        ∧ goodStopData ⟨[("SF", ⟨3, [("IB",
            ⟨[(⟨"L1", "SF", "IB", "Downtown"⟩, [10])]⟩)]⟩)]⟩) :=
  ⟨by decide,
   c10_presence_and_nonempty [] ptW 0
     [((⟨"SF", [], []⟩ : StopConfig), store_cache 3 [mkJ "10"])]
     ⟨[("SF", ⟨3, [("IB", ⟨[(⟨"L1", "SF", "IB", "Downtown"⟩, [10])]⟩)]⟩)]⟩
     (by decide)⟩

/-- C1, counterexample.  The tick's join loop is `result??`: the first task
that completes with an error makes `Client::load_stop_data` return at once,
without waiting for the remaining tasks, which are aborted with the dropped
`JoinSet`.  With agency A's old snapshot on disk and completion order
[B fails, A succeeds], the tick returns failure and A's snapshot is left at
its prior value `⟨[], 0⟩` even though A's fetch would have succeeded with
records `[mkJ "10"]` at time 5 — refuting that every other agency's fetch
still runs to completion and writes its snapshot and that the tick waits for
all per-agency tasks. -/
theorem c1_counterexample :
    Client_load_stop_data 5 [("A", ⟨[], 0⟩)]
        [⟨"B", none⟩, ⟨"A", some [mkJ "10"]⟩]
      = ([("A", ⟨[], 0⟩)], false)
    ∧ getAssoc "A" (Client_load_stop_data 5 [("A", ⟨[], 0⟩)]
        [⟨"B", none⟩, ⟨"A", some [mkJ "10"]⟩]).1 = some ⟨[], 0⟩
    ∧ (⟨[], 0⟩ : Cached) ≠ ⟨[mkJ "10"], 5⟩ :=
  ⟨rfl, rfl, by decide⟩

/-- C1, amended: in one refresh tick with tasks in completion order, a failed
fetch leaves its own agency's snapshot unchanged; every agency whose task
completes successfully before the first failure has its snapshot replaced
with the fetched records stamped at the tick's time; but the tick returns at
the first failed task without waiting for the remaining tasks (whose
snapshots are not written in this execution); and the failure never
terminates the refresh loop, which proceeds to the remaining ticks with the
resulting cache state. -/
theorem c1_amended_partial_isolation (now : Int) (st : CacheState)
    (pre post : List TickTask) (tf : TickTask)
    (hpre : ∀ t ∈ pre, t.outcome.isSome = true) (hf : tf.outcome = none)
    (hnd : ((pre ++ tf :: post).map TickTask.agency).Nodup) :
    Client_load_stop_data now st (pre ++ tf :: post)
      = (pre.foldl (fun s t => (request_and_cache_effect now s t).1) st,
         false)
    ∧ getAssoc tf.agency
        (Client_load_stop_data now st (pre ++ tf :: post)).1
      = getAssoc tf.agency st
    ∧ (∀ t ∈ pre, ∀ records, t.outcome = some records →
        getAssoc t.agency
            (Client_load_stop_data now st (pre ++ tf :: post)).1
          = some ⟨records, now⟩)
    ∧ ∀ ticks : List (Int × List TickTask),
        refresh_loop st ((now, pre ++ tf :: post) :: ticks)
          = refresh_loop
              (Client_load_stop_data now st (pre ++ tf :: post)).1 ticks := by
  have hsplit := tick_split now tf hf pre st post hpre
  have hndpre : (pre.map TickTask.agency).Nodup := by
    rw [List.map_append, List.nodup_append] at hnd
    exact hnd.1
  have hdisj : ∀ t ∈ pre, t.agency ≠ tf.agency := by
    rw [List.map_append, List.nodup_append] at hnd
    intro t ht hcon
    exact hnd.2.2 (List.mem_map_of_mem TickTask.agency ht)
      (by
        rw [hcon]
        exact List.mem_map_of_mem TickTask.agency (List.mem_cons_self tf post))
  refine ⟨hsplit, ?_, ?_, ?_⟩
  · rw [hsplit]
    exact foldl_effect_getAssoc_ne now tf.agency pre st hdisj
  · intro t ht records ho
    rw [hsplit]
    exact foldl_effect_success now pre st hndpre t ht records ho
  · intro ticks
    rfl

/-- C1, witness: with prior snapshot for B on disk, completion order
[A succeeds with records at time 5, B fails], the amended theorem applies:
A's snapshot is written, B's is untouched, the tick fails, and the loop
continues. -/
theorem c1_witness :
    ((∀ t ∈ [(⟨"A", some [mkJ "10"]⟩ : TickTask)], t.outcome.isSome = true)
      ∧ (⟨"B", none⟩ : TickTask).outcome = none
      ∧ ((([(⟨"A", some [mkJ "10"]⟩ : TickTask)]
          ++ (⟨"B", none⟩ : TickTask) :: []).map TickTask.agency).Nodup))
    ∧ (Client_load_stop_data 5 [("B", ⟨[], 0⟩)]
          ([(⟨"A", some [mkJ "10"]⟩ : TickTask)]
            ++ (⟨"B", none⟩ : TickTask) :: [])
        = ([(⟨"A", some [mkJ "10"]⟩ : TickTask)].foldl
            (fun s t => (request_and_cache_effect 5 s t).1) [("B", ⟨[], 0⟩)],
           false)
      ∧ getAssoc (⟨"B", none⟩ : TickTask).agency
          (Client_load_stop_data 5 [("B", ⟨[], 0⟩)]
            ([(⟨"A", some [mkJ "10"]⟩ : TickTask)]
              ++ (⟨"B", none⟩ : TickTask) :: [])).1
        = getAssoc (⟨"B", none⟩ : TickTask).agency [("B", ⟨[], 0⟩)]
      ∧ (∀ t ∈ [(⟨"A", some [mkJ "10"]⟩ : TickTask)],
          ∀ records, t.outcome = some records →
            getAssoc t.agency
                (Client_load_stop_data 5 [("B", ⟨[], 0⟩)]
                  ([(⟨"A", some [mkJ "10"]⟩ : TickTask)]
                    ++ (⟨"B", none⟩ : TickTask) :: [])).1
              = some ⟨records, 5⟩)
      ∧ ∀ ticks : List (Int × List TickTask),
          refresh_loop [("B", ⟨[], 0⟩)]
              ((5, [(⟨"A", some [mkJ "10"]⟩ : TickTask)]
                ++ (⟨"B", none⟩ : TickTask) :: []) :: ticks)
            = refresh_loop
                (Client_load_stop_data 5 [("B", ⟨[], 0⟩)]
                  ([(⟨"A", some [mkJ "10"]⟩ : TickTask)]
                    ++ (⟨"B", none⟩ : TickTask) :: [])).1 ticks) :=
  ⟨⟨by decide, rfl, by decide⟩,
   c1_amended_partial_isolation 5 [("B", ⟨[], 0⟩)]
     [(⟨"A", some [mkJ "10"]⟩ : TickTask)] [] ⟨"B", none⟩
     (by decide) rfl (by decide)⟩
